import Mathlib

/-!
# Verification of the FinceptTerminal unified invoke service

Shallow embedding of the transport-agnostic command/capability layer
(`src/fincept-terminal-desktop/src/services/invoke.ts`, mirrored in
`src/unnamed/part_001`): the web-mode RPC normalizer (`invokeWeb`), the
environment dispatch (`invoke`), the event-bridge fallback (`listen`),
the path-join fallback (`joinPath`), the file-system fallbacks
(`readTextFile`, `writeTextFile`, `readFile`, `writeFile`, `mkdir`) and
the open-dialog fallback (`openDialog`).

JSON/JavaScript values are modelled by the inductive `JsValue`; JSON
numbers are modelled as integers (no claim under verification depends on
fractional values).  A thrown JavaScript error is modelled by `JsError`,
recording the error class name (`"Error"` for the built-in generic
constructor, `"TypeError"` for member access on `null`/`undefined`) and
its message.  Fallible computations return `Except JsError α`.
-/

/-- A JavaScript/JSON value as handled by the invoke service.
`undefined` is JavaScript `undefined`, distinct from JSON `null`. -/
inductive JsValue where
  | undefined : JsValue
  | null : JsValue
  | bool (b : Bool) : JsValue
  | num (n : Int) : JsValue
  | str (s : String) : JsValue
  | arr (elems : List JsValue) : JsValue
  | obj (fields : List (String × JsValue)) : JsValue

/-- A thrown JavaScript error: the constructor (class) name and the message.
`new Error(m)` yields `⟨"Error", m⟩`. -/
structure JsError where
  name : String
  message : String
deriving DecidableEq

/-- JavaScript truthiness: `undefined`, `null`, `false`, `0` and `""` are
falsy; every other value (objects and arrays included) is truthy. -/
def truthy : JsValue → Bool
  | .undefined => false
  | .null => false
  | .bool b => b
  | .num n => n != 0
  | .str s => s != ""
  | .arr _ => true
  | .obj _ => true

/-- Strict equality with the boolean literal `false` (`v === false`). -/
def isStrictFalse : JsValue → Bool
  | .bool false => true
  | _ => false

/-- First-match field lookup in an object's field list. -/
def lookupField : List (String × JsValue) → String → JsValue
  | [], _ => .undefined
  | (k, v) :: rest, key => if k = key then v else lookupField rest key

/-- Total member access: the named field of an object, `undefined` for a
missing field or a non-object receiver.  (The throwing cases of real
member access are handled by `getField`.) -/
def fieldOf : JsValue → String → JsValue
  | .obj fields, key => lookupField fields key
  | _, _ => .undefined

/-- JavaScript member access `v.key`: throws `TypeError` when the receiver
is `null` or `undefined`, otherwise yields `fieldOf v key`. -/
def getField (v : JsValue) (key : String) : Except JsError JsValue :=
  match v with
  | .undefined => .error ⟨"TypeError", "Cannot read properties of undefined (reading " ++ key ++ ")"⟩
  | .null => .error ⟨"TypeError", "Cannot read properties of null (reading " ++ key ++ ")"⟩
  | .bool b => .ok (fieldOf (.bool b) key)
  | .num n => .ok (fieldOf (.num n) key)
  | .str s => .ok (fieldOf (.str s) key)
  | .arr es => .ok (fieldOf (.arr es) key)
  | .obj fs => .ok (fieldOf (.obj fs) key)

mutual
/-- String coercion of an array element inside `Array.prototype.join`:
`null` and `undefined` elements become the empty string. -/
def jsElemToString : JsValue → String
  | .undefined => ""
  | .null => ""
  | .bool b => if b then "true" else "false"
  | .num n => toString n
  | .str s => s
  | .arr es => jsArrayToString es
  | .obj _ => "[object Object]"

/-- `Array.prototype.toString`: elements joined with commas. -/
def jsArrayToString : List JsValue → String
  | [] => ""
  | [x] => jsElemToString x
  | x :: y :: rest => jsElemToString x ++ "," ++ jsArrayToString (y :: rest)
end

/-- JavaScript `String(v)` coercion, as applied by `new Error(v)` to a
non-string argument. -/
def jsToString : JsValue → String
  | .undefined => "undefined"
  | .null => "null"
  | .bool b => if b then "true" else "false"
  | .num n => toString n
  | .str s => s
  | .arr es => jsArrayToString es
  | .obj _ => "[object Object]"

/-- Discriminator: does an invoke outcome resolve (rather than reject)? -/
def isOkOutcome : Except JsError JsValue → Bool
  | .ok _ => true
  | .error _ => false

/-- The error-class name of a rejected outcome (`none` when resolved). -/
def errorNameOf {α : Type} : Except JsError α → Option String
  | .ok _ => none
  | .error e => some e.name

/-!
## The networked RPC path (`invokeWeb`, invoke.ts lines 43-68)

The HTTP layer is modelled by `HttpResponse`: the status line plus the
already-parsed JSON body (`response.json()` is modelled as parsing having
succeeded; parse failures reject before normalization and are outside the
claims under study).
-/

/-- An HTTP response as seen by `invokeWeb` after `fetch`. -/
structure HttpResponse where
  status : Nat
  statusText : String
  body : JsValue

/-- `Response.ok` of the Fetch API: status in the inclusive range 200-299. -/
def respOk (r : HttpResponse) : Bool :=
  decide (200 ≤ r.status) && decide (r.status ≤ 299)

/-- The Response Normalizer (invoke.ts lines 58-68): throw on a truthy
`error` field or `success === false` (message: the `error` field when
truthy, else `"Unknown error"`); otherwise unwrap `data` when it is not
`undefined`, else return the whole body. -/
def normalizeResponse (result : JsValue) : Except JsError JsValue :=
  match getField result "error" with
  | .error e => .error e
  | .ok err =>
    match getField result "success" with
    | .error e => .error e
    | .ok succ =>
      if truthy err || isStrictFalse succ then
        .error ⟨"Error", if truthy err then jsToString err else "Unknown error"⟩
      else
        match getField result "data" with
        | .error e => .error e
        | .ok d =>
          match d with
          | .undefined => .ok result
          | _ => .ok d

/-- Web-mode invoke (invoke.ts lines 43-68): reject with a transport error
on a non-2xx status without consulting the body, otherwise normalize the
parsed body. -/
def invokeWeb (resp : HttpResponse) : Except JsError JsValue :=
  if !(respOk resp) then
    .error ⟨"Error", "RPC call failed: " ++ toString resp.status ++ " " ++ resp.statusText⟩
  else
    normalizeResponse resp.body

/-- The two execution contexts of the Environment Descriptor. -/
inductive Environment where
  | tauri : Environment
  | web : Environment

/-- Unified `invoke` (invoke.ts lines 29-38): in the embedded (Tauri)
context the native channel's outcome is returned verbatim; in the web
context the HTTP response goes through `invokeWeb`. -/
def invoke (env : Environment) (tauriResult : Except JsError JsValue)
    (webResp : HttpResponse) : Except JsError JsValue :=
  match env with
  | .tauri => tauriResult
  | .web => invokeWeb webResp

/-!
## File-system fallbacks (invoke.ts lines 650-707)

In web mode every file-system entry point throws
`new Error('[Web Mode] File system operations are not available. Use server-side APIs.')`.
-/

/-- The fixed message thrown by every web-mode file-system fallback. -/
def webFsMessage : String :=
  "[Web Mode] File system operations are not available. Use server-side APIs."

/-- `readTextFile` in web mode. -/
def readTextFileWeb (path : String) : Except JsError String :=
  .error ⟨"Error", webFsMessage⟩

/-- `writeTextFile` in web mode. -/
def writeTextFileWeb (path contents : String) : Except JsError Unit :=
  .error ⟨"Error", webFsMessage⟩

/-- `readFile` (binary) in web mode. -/
def readFileWeb (path : String) : Except JsError (List Nat) :=
  .error ⟨"Error", webFsMessage⟩

/-- `writeFile` (binary) in web mode. -/
def writeFileWeb (path : String) (contents : List Nat) : Except JsError Unit :=
  .error ⟨"Error", webFsMessage⟩

/-- `mkdir` in web mode. -/
def mkdirWeb (path : String) : Except JsError Unit :=
  .error ⟨"Error", webFsMessage⟩

/-!
## Event-bridge fallback (`listen`, invoke.ts lines 399-412)

In web mode `listen` logs a warning, performs no registration (the
handler is never wired to anything) and resolves to `() => {}`.  The
subscription is modelled by the trace of events delivered to the handler
(empty in web mode) together with the unsubscribe function, which is pure
and never throws.
-/

/-- Outcome of a web-mode `listen`: the events delivered to the handler
and the unsubscribe function. -/
structure WebSubscription where
  deliveredEvents : List JsValue
  unlisten : Unit → Except JsError Unit

/-- Web-mode `listen`: emits one warning naming the event, never touches
the handler, and resolves to a no-op unsubscribe function. -/
def listenWeb (event : String) (handler : JsValue → Unit) :
    List String × WebSubscription :=
  (["[Web Mode] Event listener for " ++ event ++
      " is not available. Use WebSocket for real-time updates."],
   ⟨[], fun _ => .ok ()⟩)

/-!
## Path-join fallback (`joinPath`, invoke.ts lines 436-452)

The web branch maps `/\/+$/g` over the first segment (strip the trailing
run of slashes) and `/^\/+|\/+$/g` over every later segment (strip the
leading and the trailing run), drops segments that became empty, and
joins with `"/"`.  The character-level strippers are defined on
`List Char` and lifted to `String`.
-/

/-- Drop the leading run of `'/'` characters. -/
def dropLeadingSlashes : List Char → List Char
  | [] => []
  | c :: cs => if c = '/' then dropLeadingSlashes cs else c :: cs

/-- Drop the trailing run of `'/'` characters. -/
def dropTrailingSlashes (cs : List Char) : List Char :=
  (dropLeadingSlashes cs.reverse).reverse

/-- `p.replace(/\/+$/g, '')`: strip the trailing run of slashes. -/
def stripTrailingSlashes (s : String) : String :=
  ⟨dropTrailingSlashes s.data⟩

/-- `p.replace(/^\/+|\/+$/g, '')`: strip the leading and the trailing run
of slashes. -/
def stripEdgeSlashes (s : String) : String :=
  ⟨dropLeadingSlashes (dropTrailingSlashes s.data)⟩

/-- Web-mode `joinPath` (invoke.ts lines 443-450): index-aware map of the
slash strippers, filter out empty segments, join with `"/"`; the empty
segment list yields `""`. -/
def joinPath (paths : List String) : String :=
  if paths.length = 0 then
    ""
  else
    String.intercalate "/"
      ((paths.enum.map (fun ip =>
          if ip.1 = 0 then stripTrailingSlashes ip.2 else stripEdgeSlashes ip.2)).filter
        (fun p => p.length != 0))

/-- The claimed algorithm of C6, stated the way the claim words it: strip
trailing slashes from the first segment and both edges of every later
segment, drop segments that became empty, join with `"/"`; zero segments
yield the empty string. -/
def joinPathSpec : List String → String
  | [] => ""
  | first :: rest =>
    String.intercalate "/"
      ((stripTrailingSlashes first :: rest.map stripEdgeSlashes).filter
        (fun p => p.length != 0))

/-!
## Open-dialog fallback (`openDialog`, invoke.ts lines 552-594)

The web branch creates a file input, listens once for the window `focus`
event (fired when the native picker closes) and for the input's `change`
event.  The `focus` handler schedules a check 300 ms later that resolves
`null` if nothing was selected by then; the `change` handler resolves the
selected file name(s) immediately (or `null` when the selection is
empty).  The asynchronous behaviour is modelled by a timed event trace:
the (optional) instant the window regains focus, and the (optional)
instant the `change` event fires together with the file names it carries.
The model returns the instant at which the promise settles and the
settled value; `none` means the promise never settles.
-/

/-- The fixed settle delay of the cancel heuristic, in milliseconds. -/
def settleDelay : Nat := 300

/-- Timed trace of the browser events reaching the dialog fallback. -/
structure DialogTrace where
  focusTime : Option Nat
  changeTime : Option Nat
  changeFiles : List String

/-- The value resolved by the `change` handler: the name list when
`multiple`, the first name otherwise, `null` for an empty selection. -/
def changeResolution (multiple : Bool) : List String → JsValue
  | [] => .null
  | f :: fs => if multiple then .arr ((f :: fs).map .str) else .str f

/-- Settling of the web-mode `openDialog` promise on a trace.  The cancel
timer fires `settleDelay` after the focus event and resolves `null` only
if the `change` handler has not already resolved and no file is selected
at that instant; a `change` event by the timer's firing instant wins. -/
def openDialogWebResolution (multiple : Bool) (tr : DialogTrace) :
    Option (Nat × JsValue) :=
  match tr.changeTime, tr.focusTime with
  | some tc, some tf =>
    if tc ≤ tf + settleDelay then
      some (tc, changeResolution multiple tr.changeFiles)
    else
      some (tf + settleDelay, .null)
  | some tc, none => some (tc, changeResolution multiple tr.changeFiles)
  | none, some tf => some (tf + settleDelay, .null)
  | none, none => none

/-! ## Helper lemmas -/

/-- A value other than the literal `false` fails the strict `=== false` test. -/
theorem isStrictFalse_eq_false {v : JsValue} (h : v ≠ .bool false) :
    isStrictFalse v = false := by
  cases v with
  | undefined => rfl
  | null => rfl
  | bool b =>
    cases b with
    | true => rfl
    | false => exact absurd rfl h
  | num n => rfl
  | str s => rfl
  | arr es => rfl
  | obj fs => rfl

/-- Normalization of a body whose `error` field is a non-empty string:
rejection with exactly that string, whatever the rest of the body says. -/
theorem normalizeResponse_error_str (body : JsValue) (m : String)
    (herr : fieldOf body "error" = .str m) (hm : m ≠ "") :
    normalizeResponse body = .error ⟨"Error", m⟩ := by
  cases body with
  | undefined => simp [fieldOf] at herr
  | null => simp [fieldOf] at herr
  | bool b => simp [fieldOf] at herr
  | num n => simp [fieldOf] at herr
  | str s => simp [fieldOf] at herr
  | arr es => simp [fieldOf] at herr
  | obj fs =>
    have hl : lookupField fs "error" = .str m := herr
    simp [normalizeResponse, getField, fieldOf, hl, truthy, jsToString, hm]

/-- Normalization of a body with `success === false` and a falsy `error`
field: rejection with the fixed generic message. -/
theorem normalizeResponse_success_false (body : JsValue)
    (hsucc : fieldOf body "success" = .bool false)
    (herr : truthy (fieldOf body "error") = false) :
    normalizeResponse body = .error ⟨"Error", "Unknown error"⟩ := by
  cases body with
  | undefined => simp [fieldOf] at hsucc
  | null => simp [fieldOf] at hsucc
  | bool b => simp [fieldOf] at hsucc
  | num n => simp [fieldOf] at hsucc
  | str s => simp [fieldOf] at hsucc
  | arr es => simp [fieldOf] at hsucc
  | obj fs =>
    have hl : lookupField fs "success" = .bool false := hsucc
    have he : truthy (lookupField fs "error") = false := herr
    simp [normalizeResponse, getField, fieldOf, hl, he, isStrictFalse]

/-- Claim C1: for every 2xx networked RPC response whose body carries a
non-empty string `error` field, `invoke` rejects with exactly that string
as the message, whatever else the body says (in particular even when it
also carries `success: true`): the error marker wins over the success
flag. -/
theorem invokeWeb_error_field_precedence (resp : HttpResponse) (m : String)
    (hok : respOk resp = true) (herr : fieldOf resp.body "error" = .str m)
    (hm : m ≠ "") :
    invokeWeb resp = .error ⟨"Error", m⟩ := by
  simp [invokeWeb, hok, normalizeResponse_error_str resp.body m herr hm]

theorem invokeWeb_error_field_precedence_witness :
    respOk ⟨200, "OK", .obj [("success", .bool true), ("error", .str "boom")]⟩ = true ∧
    fieldOf (.obj [("success", .bool true), ("error", .str "boom")]) "error" = .str "boom" ∧
    "boom" ≠ "" ∧
    invokeWeb ⟨200, "OK", .obj [("success", .bool true), ("error", .str "boom")]⟩
      = .error ⟨"Error", "boom"⟩ :=
  ⟨rfl, rfl, by decide,
   invokeWeb_error_field_precedence
     ⟨200, "OK", .obj [("success", .bool true), ("error", .str "boom")]⟩
     "boom" rfl rfl (by decide)⟩

/-- Claim C7: for every 2xx networked RPC response whose body has
`success === false` and no truthy `error` field, `invoke` rejects with the
fixed generic message `"Unknown error"`, which is non-empty. -/
theorem invokeWeb_success_false_generic_message (resp : HttpResponse)
    (hok : respOk resp = true)
    (hsucc : fieldOf resp.body "success" = .bool false)
    (herr : truthy (fieldOf resp.body "error") = false) :
    invokeWeb resp = .error ⟨"Error", "Unknown error"⟩ ∧ "Unknown error" ≠ "" := by
  refine ⟨?_, by decide⟩
  simp [invokeWeb, hok, normalizeResponse_success_false resp.body hsucc herr]

theorem invokeWeb_success_false_generic_message_witness :
    respOk ⟨200, "OK", .obj [("success", .bool false)]⟩ = true ∧
    fieldOf (.obj [("success", .bool false)]) "success" = .bool false ∧
    truthy (fieldOf (.obj [("success", .bool false)]) "error") = false ∧
    invokeWeb ⟨200, "OK", .obj [("success", .bool false)]⟩
      = .error ⟨"Error", "Unknown error"⟩ :=
  ⟨rfl, rfl, rfl,
   (invokeWeb_success_false_generic_message ⟨200, "OK", .obj [("success", .bool false)]⟩
     rfl rfl rfl).1⟩

/-- Claim C5: for every networked `invoke` call whose HTTP response has a
non-2xx status, the call rejects with the transport error built from the
status line, and the outcome is identical for every possible body: the
body is never consulted on that path. -/
theorem invokeWeb_non2xx_transport_failure (resp : HttpResponse)
    (hko : respOk resp = false) :
    invokeWeb resp
      = .error ⟨"Error", "RPC call failed: " ++ toString resp.status ++ " " ++ resp.statusText⟩ ∧
    ∀ b : JsValue, invokeWeb ⟨resp.status, resp.statusText, b⟩ = invokeWeb resp := by
  cases resp with
  | mk s st body =>
    have h : respOk ⟨s, st, body⟩ = false := hko
    refine ⟨by simp [invokeWeb, h], ?_⟩
    intro b
    have h' : respOk ⟨s, st, b⟩ = false := h
    simp [invokeWeb, h, h']

theorem invokeWeb_non2xx_transport_failure_witness :
    respOk ⟨500, "Internal Server Error", .obj [("success", .bool true)]⟩ = false ∧
    invokeWeb ⟨500, "Internal Server Error", .obj [("success", .bool true)]⟩
      = .error ⟨"Error", "RPC call failed: 500 Internal Server Error"⟩ :=
  ⟨rfl,
   (invokeWeb_non2xx_transport_failure
     ⟨500, "Internal Server Error", .obj [("success", .bool true)]⟩ rfl).1⟩

/-- Claim C2 counterexample: the embedded (Tauri) path returns the
channel's outcome verbatim, so a raw body carrying an error marker is
resolved as-is, whereas the Response Normalizer would reject it: the two
paths do not apply the same normalization. -/
theorem invoke_embedded_bypasses_normalizer :
    invoke .tauri (.ok (.obj [("error", .str "boom")])) ⟨200, "OK", .obj []⟩
      = .ok (.obj [("error", .str "boom")]) ∧
    normalizeResponse (.obj [("error", .str "boom")]) = .error ⟨"Error", "boom"⟩ ∧
    invoke .tauri (.ok (.obj [("error", .str "boom")])) ⟨200, "OK", .obj []⟩
      ≠ normalizeResponse (.obj [("error", .str "boom")]) :=
  ⟨rfl, rfl, fun h => Except.noConfusion h⟩

/-- Claim C2 amended: only the networked path feeds its raw transport
result through the Response Normalizer; the embedded path returns the
channel's outcome verbatim, with no error-marker/success-flag/data-unwrap
normalization. -/
theorem invoke_normalizes_web_path_only (raw : Except JsError JsValue)
    (resp : HttpResponse) (hok : respOk resp = true) :
    invoke .tauri raw resp = raw ∧
    invoke .web raw resp = normalizeResponse resp.body :=
  ⟨rfl, by simp [invoke, invokeWeb, hok]⟩

theorem invoke_normalizes_web_path_only_witness :
    respOk ⟨200, "OK", .obj [("data", .num 7)]⟩ = true ∧
    invoke .tauri (.ok .null) ⟨200, "OK", .obj [("data", .num 7)]⟩ = .ok .null ∧
    invoke .web (.ok .null) ⟨200, "OK", .obj [("data", .num 7)]⟩
      = normalizeResponse (.obj [("data", .num 7)]) :=
  ⟨rfl,
   (invoke_normalizes_web_path_only (.ok .null) ⟨200, "OK", .obj [("data", .num 7)]⟩ rfl).1,
   (invoke_normalizes_web_path_only (.ok .null) ⟨200, "OK", .obj [("data", .num 7)]⟩ rfl).2⟩

/-- Claim C3 counterexample: each networked file-system fallback rejects
with the generic built-in `Error` class (constructor name `"Error"`),
which is not a distinct `UnsupportedCapabilityError` class. -/
theorem webFs_generic_error_class :
    errorNameOf (readTextFileWeb "config.json") = some "Error" ∧
    errorNameOf (writeTextFileWeb "config.json" "x") = some "Error" ∧
    errorNameOf (readFileWeb "data.bin") = some "Error" ∧
    errorNameOf (writeFileWeb "data.bin" [0]) = some "Error" ∧
    errorNameOf (mkdirWeb "cache") = some "Error" ∧
    "Error" ≠ "UnsupportedCapabilityError" :=
  ⟨rfl, rfl, rfl, rfl, rfl, by decide⟩

/-- Claim C3 amended: in the networked context `readTextFile`,
`writeTextFile`, `readFile`, `writeFile` and `mkdir` all throw a plain
generic `Error` carrying one fixed `"[Web Mode] ..."` message; callers can
recognise the unsupported-capability case only by that message text, not
by a distinct error class. -/
theorem webFs_fallbacks_fixed_message (path contents : String) (bytes : List Nat) :
    readTextFileWeb path = .error ⟨"Error", webFsMessage⟩ ∧
    writeTextFileWeb path contents = .error ⟨"Error", webFsMessage⟩ ∧
    readFileWeb path = .error ⟨"Error", webFsMessage⟩ ∧
    writeFileWeb path bytes = .error ⟨"Error", webFsMessage⟩ ∧
    mkdirWeb path = .error ⟨"Error", webFsMessage⟩ :=
  ⟨rfl, rfl, rfl, rfl, rfl⟩

/-- Concrete instance of the amended C3 theorem. -/
theorem webFs_fallbacks_fixed_message_witness :
    readTextFileWeb "settings.json" = .error ⟨"Error", webFsMessage⟩ ∧
    mkdirWeb "cache-dir" = .error ⟨"Error", webFsMessage⟩ :=
  ⟨(webFs_fallbacks_fixed_message "settings.json" "" []).1,
   (webFs_fallbacks_fixed_message "cache-dir" "" []).2.2.2.2⟩

/-- Claim C4 counterexample: a 2xx response whose whole body is JSON
`null` satisfies the claim's hypotheses (no truthy `error` field,
`success` is not `false`, `data` is `undefined`) yet `invoke` rejects with
a `TypeError` from the member access `result.error`, instead of resolving
to the whole body as the claim requires. -/
theorem invokeWeb_null_body_rejects :
    respOk ⟨200, "OK", .null⟩ = true ∧
    truthy (fieldOf JsValue.null "error") = false ∧
    fieldOf JsValue.null "success" ≠ .bool false ∧
    invokeWeb ⟨200, "OK", .null⟩
      = .error ⟨"TypeError", "Cannot read properties of null (reading error)"⟩ ∧
    invokeWeb ⟨200, "OK", .null⟩ ≠ .ok .null :=
  ⟨rfl, rfl, fun h => JsValue.noConfusion h, rfl, fun h => Except.noConfusion h⟩

/-- Claim C4 amended: for every 2xx networked RPC response whose body is
not `null` (and not `undefined`, which JSON parsing cannot produce) and is
not treated as a failure (no truthy `error` field, `success` not strictly
`false`): when the body's `data` field is not `undefined`, `invoke`
resolves to exactly that `data` value (falsy values such as `0`, `false`
or `null` included); otherwise it resolves to the whole body unmodified. -/
theorem invokeWeb_data_unwrap (resp : HttpResponse)
    (hok : respOk resp = true)
    (hnull : resp.body ≠ .null) (hnu : resp.body ≠ .undefined)
    (herr : truthy (fieldOf resp.body "error") = false)
    (hsucc : fieldOf resp.body "success" ≠ .bool false) :
    (fieldOf resp.body "data" ≠ .undefined → invokeWeb resp = .ok (fieldOf resp.body "data")) ∧
    (fieldOf resp.body "data" = .undefined → invokeWeb resp = .ok resp.body) := by
  obtain ⟨s, st, body⟩ := resp
  have hs : isStrictFalse (fieldOf body "success") = false := isStrictFalse_eq_false hsucc
  cases body with
  | undefined => exact absurd rfl hnu
  | null => exact absurd rfl hnull
  | bool b =>
    exact ⟨fun hd => absurd rfl hd,
      fun _ => by simp [invokeWeb, hok, normalizeResponse, getField, fieldOf, truthy, isStrictFalse]⟩
  | num n =>
    exact ⟨fun hd => absurd rfl hd,
      fun _ => by simp [invokeWeb, hok, normalizeResponse, getField, fieldOf, truthy, isStrictFalse]⟩
  | str s2 =>
    exact ⟨fun hd => absurd rfl hd,
      fun _ => by simp [invokeWeb, hok, normalizeResponse, getField, fieldOf, truthy, isStrictFalse]⟩
  | arr es =>
    exact ⟨fun hd => absurd rfl hd,
      fun _ => by simp [invokeWeb, hok, normalizeResponse, getField, fieldOf, truthy, isStrictFalse]⟩
  | obj fs =>
    have he : truthy (lookupField fs "error") = false := herr
    have hs2 : isStrictFalse (lookupField fs "success") = false := hs
    constructor
    · intro hd
      cases hd2 : lookupField fs "data" with
      | undefined => exact absurd hd2 hd
      | null => simp [invokeWeb, hok, normalizeResponse, getField, fieldOf, he, hs2, hd2]
      | bool b => simp [invokeWeb, hok, normalizeResponse, getField, fieldOf, he, hs2, hd2]
      | num n => simp [invokeWeb, hok, normalizeResponse, getField, fieldOf, he, hs2, hd2]
      | str s2 => simp [invokeWeb, hok, normalizeResponse, getField, fieldOf, he, hs2, hd2]
      | arr es => simp [invokeWeb, hok, normalizeResponse, getField, fieldOf, he, hs2, hd2]
      | obj fs2 => simp [invokeWeb, hok, normalizeResponse, getField, fieldOf, he, hs2, hd2]
    · intro hd
      have hd2 : lookupField fs "data" = .undefined := hd
      simp [invokeWeb, hok, normalizeResponse, getField, fieldOf, he, hs2, hd2]

theorem invokeWeb_data_unwrap_witness :
    respOk ⟨200, "OK", .obj [("success", .bool true), ("data", .num 0)]⟩ = true ∧
    fieldOf (.obj [("success", .bool true), ("data", .num 0)]) "data" = .num 0 ∧
    invokeWeb ⟨200, "OK", .obj [("success", .bool true), ("data", .num 0)]⟩ = .ok (.num 0) :=
  ⟨rfl, rfl,
   (invokeWeb_data_unwrap ⟨200, "OK", .obj [("success", .bool true), ("data", .num 0)]⟩
      rfl (fun h => JsValue.noConfusion h) (fun h => JsValue.noConfusion h) rfl
      (by simp [fieldOf, lookupField])).1 (by simp [fieldOf, lookupField])⟩

/-- Claim C8: in the networked context, for every event name and handler,
`listen` resolves to an unsubscribe function; calling it (any number of
times, each call being independent) never throws and has no effect, and
the handler is never invoked (its delivery trace is empty). -/
theorem listenWeb_noop_subscription (event : String) (handler : JsValue → Unit) :
    (listenWeb event handler).2.deliveredEvents = [] ∧
    ∀ u : Unit, (listenWeb event handler).2.unlisten u = .ok () :=
  ⟨rfl, fun _ => rfl⟩

/-- Concrete instance of the C8 theorem. -/
theorem listenWeb_noop_subscription_witness :
    (listenWeb "market-tick" (fun _ => ())).2.deliveredEvents = [] ∧
    (listenWeb "market-tick" (fun _ => ())).2.unlisten () = .ok () :=
  ⟨(listenWeb_noop_subscription "market-tick" (fun _ => ())).1,
   (listenWeb_noop_subscription "market-tick" (fun _ => ())).2 ()⟩

/-- Claim C9: in the networked open-dialog fallback, when no file is
chosen and the window regains focus at `tf`, the dialog resolves `null`
exactly at `tf + 300` ms, never before; a selection change event carrying
at least one file that arrives within the settle window resolves the
selected file name(s), never `null`. -/
theorem openDialog_cancel_settle_timing (multiple : Bool) (tf : Nat) :
    openDialogWebResolution multiple ⟨some tf, none, []⟩ = some (tf + settleDelay, .null) ∧
    ∀ (tc : Nat) (f : String) (fs : List String), tc ≤ tf + settleDelay →
      openDialogWebResolution multiple ⟨some tf, some tc, f :: fs⟩
          = some (tc, changeResolution multiple (f :: fs)) ∧
        changeResolution multiple (f :: fs) ≠ .null := by
  refine ⟨rfl, fun tc f fs htc => ⟨?_, ?_⟩⟩
  · simp [openDialogWebResolution, htc]
  · cases multiple with
    | true => simp [changeResolution]
    | false => simp [changeResolution]

theorem openDialog_cancel_settle_timing_witness :
    openDialogWebResolution false ⟨some 50, none, []⟩ = some (350, .null) ∧
    (100 : Nat) ≤ 50 + settleDelay ∧
    openDialogWebResolution false ⟨some 50, some 100, ["report.csv"]⟩
      = some (100, .str "report.csv") :=
  ⟨(openDialog_cancel_settle_timing false 50).1, by decide,
   ((openDialog_cancel_settle_timing false 50).2 100 "report.csv" [] (by decide)).1⟩

/-! ## Lemmas for the path-join fallback -/

/-- Stripping leading slashes of an all-slash list empties it. -/
theorem dropLeadingSlashes_eq_nil {l : List Char} (h : ∀ c ∈ l, c = '/') :
    dropLeadingSlashes l = [] := by
  induction l with
  | nil => rfl
  | cons c cs ih =>
    have hc : c = '/' := h c (List.mem_cons_self c cs)
    simp [dropLeadingSlashes, hc, ih (fun d hd => h d (List.mem_cons_of_mem c hd))]

/-- Stripping trailing slashes of an all-slash list empties it. -/
theorem dropTrailingSlashes_eq_nil {l : List Char} (h : ∀ c ∈ l, c = '/') :
    dropTrailingSlashes l = [] := by
  have : dropLeadingSlashes l.reverse = [] :=
    dropLeadingSlashes_eq_nil (fun c hc => h c (List.mem_reverse.mp hc))
  simp [dropTrailingSlashes, this]

/-- Stripping leading slashes yields a suffix of the input. -/
theorem dropLeadingSlashes_suffix : ∀ l : List Char, dropLeadingSlashes l <:+ l := by
  intro l
  induction l with
  | nil => exact List.suffix_rfl
  | cons c cs ih =>
    by_cases hc : c = '/'
    · simpa [dropLeadingSlashes, hc] using ih.trans (List.suffix_cons c cs)
    · simp [dropLeadingSlashes, hc]

/-- Stripping trailing slashes yields a prefix of the input. -/
theorem dropTrailingSlashes_prefix (l : List Char) : dropTrailingSlashes l <+: l := by
  have h := dropLeadingSlashes_suffix l.reverse
  rw [← List.reverse_prefix] at h
  simpa [dropTrailingSlashes] using h

/-- A list containing a non-slash character survives leading-slash stripping. -/
theorem dropLeadingSlashes_ne_nil {l : List Char} (h : ∃ c ∈ l, c ≠ '/') :
    dropLeadingSlashes l ≠ [] := by
  induction l with
  | nil => obtain ⟨c, hc, _⟩ := h; exact absurd hc (List.not_mem_nil c)
  | cons c cs ih =>
    by_cases hc : c = '/'
    · obtain ⟨d, hd, hne⟩ := h
      rcases List.mem_cons.mp hd with h1 | h2
      · exact absurd (h1 ▸ hc) hne
      · simpa [dropLeadingSlashes, hc] using ih ⟨d, h2, hne⟩
    · simp [dropLeadingSlashes, hc]

/-- A list containing a non-slash character survives trailing-slash stripping. -/
theorem dropTrailingSlashes_ne_nil {l : List Char} (h : ∃ c ∈ l, c ≠ '/') :
    dropTrailingSlashes l ≠ [] := by
  obtain ⟨c, hc, hne⟩ := h
  have : dropLeadingSlashes l.reverse ≠ [] :=
    dropLeadingSlashes_ne_nil ⟨c, List.mem_reverse.mpr hc, hne⟩
  simpa [dropTrailingSlashes] using this

/-- A nonempty prefix shares the head. -/
theorem head_of_prefix {l₁ l₂ : List Char} (h : l₁ <+: l₂) (hne : l₁ ≠ []) :
    l₂.head? = l₁.head? := by
  obtain ⟨t, rfl⟩ := h
  cases l₁ with
  | nil => exact absurd rfl hne
  | cons a as => rfl

/-- The head of a nonempty left part of an append. -/
theorem head_append_left {α : Type} (l₁ l₂ : List α) (h : l₁ ≠ []) :
    (l₁ ++ l₂).head? = l₁.head? := by
  cases l₁ with
  | nil => exact absurd rfl h
  | cons a as => rfl

/-- The accumulator of `String.intercalate.go` is a prefix of the output. -/
theorem intercalate_go_data (sep : String) :
    ∀ (l : List String) (acc : String),
      ∃ t : List Char, (String.intercalate.go acc sep l).data = acc.data ++ t := by
  intro l
  induction l with
  | nil => exact fun acc => ⟨[], by simp [String.intercalate.go]⟩
  | cons a as ih =>
    intro acc
    obtain ⟨t, ht⟩ := ih (acc ++ sep ++ a)
    exact ⟨sep.data ++ a.data ++ t,
      by simp [String.intercalate.go, ht, String.data_append, List.append_assoc]⟩

/-- The head of an intercalation is the head of its nonempty first piece. -/
theorem intercalate_head (sep x : String) (xs : List String) (hx : x.data ≠ []) :
    (String.intercalate sep (x :: xs)).data.head? = x.data.head? := by
  show (String.intercalate.go x sep xs).data.head? = x.data.head?
  obtain ⟨t, ht⟩ := intercalate_go_data sep xs x
  rw [ht]
  exact head_append_left x.data t hx

/-- The index-aware strip map applied from any positive start index acts as
`stripEdgeSlashes` on every segment. -/
theorem enumFrom_map_strip (paths : List String) :
    ∀ i : Nat, i ≠ 0 →
      (paths.enumFrom i).map (fun ip =>
          if ip.1 = 0 then stripTrailingSlashes ip.2 else stripEdgeSlashes ip.2)
        = paths.map stripEdgeSlashes := by
  induction paths with
  | nil => intro i _; rfl
  | cons a as ih =>
    intro i hi
    rw [List.enumFrom_cons]
    simp [hi, ih (i + 1) (Nat.succ_ne_zero i)]

/-- The source `joinPath` computes the algorithm stated by the claim. -/
theorem joinPath_eq_spec (paths : List String) : joinPath paths = joinPathSpec paths := by
  cases paths with
  | nil => rfl
  | cons a as =>
    have h := enumFrom_map_strip as 1 (by decide)
    simp [joinPath, joinPathSpec, List.enum_cons, h]

/-- Claim C6: the networked `joinPath` computes exactly the claimed
algorithm (strip trailing slashes from the first segment, both edges of
every later segment, drop emptied segments, join with `/`; zero segments
give `""`), and in particular joins `"a/", "/b/", "c/"` to `"a/b/c"` and
`"/a", ""` to `"/a"`. -/
theorem joinPath_manual_segment_join :
    (∀ paths : List String, joinPath paths = joinPathSpec paths) ∧
    joinPath [] = "" ∧
    joinPath ["a/", "/b/", "c/"] = "a/b/c" ∧
    joinPath ["/a", ""] = "/a" :=
  ⟨joinPath_eq_spec, rfl, by decide, by decide⟩

/-- Concrete instance of the C6 theorem. -/
theorem joinPath_manual_segment_join_witness :
    joinPath ["a/", "/b/", "c/"] = joinPathSpec ["a/", "/b/", "c/"] :=
  joinPath_manual_segment_join.1 ["a/", "/b/", "c/"]

/-- Claim C10: in the networked `joinPath`, a first segment consisting
solely of slashes is emptied by trailing-slash stripping and dropped (so
`joinPath "/"` gives `""` and `joinPath "/" "a"` gives `"a"`), while a
first segment starting with `/` that contains a non-slash character keeps
its leading slash in the result. -/
theorem joinPath_leading_slash_survival :
    joinPath ["/"] = "" ∧
    joinPath ["/", "a"] = "a" ∧
    (∀ (s : String) (rest : List String), (∀ c ∈ s.data, c = '/') →
      joinPath (s :: rest)
        = String.intercalate "/" ((rest.map stripEdgeSlashes).filter (fun p => p.length != 0))) ∧
    (∀ (s : String) (rest : List String), s.data.head? = some '/' →
      (∃ c ∈ s.data, c ≠ '/') → (joinPath (s :: rest)).data.head? = some '/') := by
  refine ⟨by decide, by decide, ?_, ?_⟩
  · intro s rest h
    rw [joinPath_eq_spec]
    have h0 : dropTrailingSlashes s.data = [] := dropTrailingSlashes_eq_nil h
    have hlen : ¬ ((stripTrailingSlashes s).length != 0) = true := by
      show ¬ ((dropTrailingSlashes s.data).length != 0) = true
      simp [h0]
    show String.intercalate "/"
        ((stripTrailingSlashes s :: rest.map stripEdgeSlashes).filter (fun p => p.length != 0))
      = _
    rw [@List.filter_cons_of_neg String (fun p => p.length != 0) (stripTrailingSlashes s)
      (rest.map stripEdgeSlashes) hlen]
  · intro s rest hhead hex
    rw [joinPath_eq_spec]
    have hne : dropTrailingSlashes s.data ≠ [] := dropTrailingSlashes_ne_nil hex
    have hkeep : ((stripTrailingSlashes s).length != 0) = true := by
      show ((dropTrailingSlashes s.data).length != 0) = true
      simpa [List.length_eq_zero] using hne
    show (String.intercalate "/"
        ((stripTrailingSlashes s :: rest.map stripEdgeSlashes).filter
          (fun p => p.length != 0))).data.head? = some '/'
    rw [@List.filter_cons_of_pos String (fun p => p.length != 0) (stripTrailingSlashes s)
      (rest.map stripEdgeSlashes) hkeep]
    rw [intercalate_head "/" (stripTrailingSlashes s) _ hne]
    have hpre : dropTrailingSlashes s.data <+: s.data := dropTrailingSlashes_prefix s.data
    have hh : (dropTrailingSlashes s.data).head? = some '/' := by
      rw [← head_of_prefix hpre hne]
      exact hhead
    exact hh

theorem joinPath_leading_slash_survival_witness :
    joinPath ["//", "/a"]
      = String.intercalate "/" ((["/a"].map stripEdgeSlashes).filter (fun p => p.length != 0)) ∧
    (joinPath ["/a", "b"]).data.head? = some '/' :=
  ⟨joinPath_leading_slash_survival.2.2.1 "//" ["/a"] (by decide),
   joinPath_leading_slash_survival.2.2.2 "/a" ["b"] (by decide) ⟨'a', by decide, by decide⟩⟩
